import Mathlib

/-!
Verification of the book_stall repository's core pipeline:
field mapping (`apply_mapping`), the derived search key, the substring
query engine (`performSearch` in the embedded search component), and the
Google-Drive link rewriter (`fix_drive_url`).

Strings are modelled as Lean `String`s (lists of characters); the Python
and JavaScript string primitives used by the source (`strip`/`trim`,
`lower`/`toLowerCase`, substring containment, `str.split`) are embedded
as executable character-list functions below.
-/

set_option maxHeartbeats 1000000

namespace BookStall

/-! ## Character-list string primitives -/

/-- Whitespace stripping from the front and the back, as Python `str.strip()`
and JavaScript `String.prototype.trim()` do. -/
def trimChars (s : List Char) : List Char :=
  ((s.dropWhile Char.isWhitespace).reverse.dropWhile Char.isWhitespace).reverse

/-- String wrapper of `trimChars`. -/
def trimStr (s : String) : String := ⟨trimChars s.data⟩

/-- Character-wise lower-casing, as Python `str.lower()` and JavaScript
`String.prototype.toLowerCase()` do on ASCII data. -/
def lowerStr (s : String) : String := ⟨s.data.map Char.toLower⟩

/-- Contiguous-substring containment, as Python `in` and JavaScript
`String.prototype.includes` test it: `hasSubstr need hay` is `true` iff
`need` occurs contiguously inside `hay`. -/
def hasSubstr (need : List Char) : List Char → Bool
  | [] => need.isEmpty
  | c :: t => need.isPrefixOf (c :: t) || hasSubstr need t

/-- String-level substring containment. -/
def strIncludes (hay need : String) : Bool := hasSubstr need.data hay.data

/-! ## The search component's row records and `performSearch`

The embedded search component serializes each mapped row as a JSON record
with the five app fields plus the `_search` blob; `performSearch` filters
that array. -/

/-- One record of the `allData` array handed to the search component. -/
structure SRow where
  BK_Number : String
  BK_name : String
  BK_rate : String
  BK_row : String
  BK_image : String
  _search : String
deriving DecidableEq

/-- Embedding of the JavaScript `performSearch(query, mode, exactId)`:
returns the `currentResults` array it computes.

```js
if (!query.trim()) { currentResults = []; ... return; }
if (mode === 'single' && exactId) {
    currentResults = allData.filter(item => String(item.BK_Number) === String(exactId));
} else {
    const qn = query.toLowerCase().trim();
    currentResults = allData.filter(item => item._search.includes(qn));
}
``` -/
def performSearch (allData : List SRow) (query : String) (mode : String)
    (exactId : Option String) : List SRow :=
  if trimStr query = "" then []
  else if mode == "single" && (match exactId with | none => false | some s => !(s == "")) then
    allData.filter (fun r => r.BK_Number == exactId.getD "")
  else
    allData.filter (fun r => strIncludes r._search (trimStr (lowerStr query)))

/-- Modelled from the spec: the query-normalization rule of §3 ("stripping
leading/trailing whitespace, lower-casing, and collapsing internal runs of
whitespace to a single space"), used to compare the spec's words against
what the code actually does. The code itself never collapses runs. -/
def collapseWsAux : Bool → List Char → List Char
  | _, [] => []
  | prevWs, c :: t =>
    if c.isWhitespace then
      if prevWs then collapseWsAux true t else ' ' :: collapseWsAux true t
    else c :: collapseWsAux false t

/-- Modelled from the spec: full §3 query normalization (trim, lower-case,
collapse internal whitespace runs to single spaces). -/
def specNormalize (q : String) : String :=
  ⟨trimChars (collapseWsAux false (q.data.map Char.toLower))⟩

/-! ## Python `str.split` and the Drive-link rewriter -/

/-- Python `str.split(sep)` for a non-empty separator: the pieces of `s`
between the left-most non-overlapping occurrences of `sep`. (The source
only calls it with non-empty literal separators; for `sep = []` this
returns `[s]`.) -/
def pysplit (sep : List Char) : List Char → List (List Char)
  | [] => [[]]
  | c :: t =>
    if h : sep ≠ [] ∧ sep.isPrefixOf (c :: t) then
      [] :: pysplit sep ((c :: t).drop sep.length)
    else
      match pysplit sep t with
      | [] => [[c]]
      | u :: us => (c :: u) :: us
  termination_by s => s.length
  decreasing_by
  · simp only [List.length_drop, List.length_cons]
    have hpos : 0 < sep.length := List.length_pos.mpr h.1
    omega
  · simp only [List.length_cons]
    omega

def hostChars : List Char := "drive.google.com".data

def fileDChars : List Char := "/file/d/".data

def idEqChars : List Char := "id=".data

def thumbPre : List Char := "https://drive.google.com/thumbnail?id=".data

def thumbSuf : List Char := "&sz=w1000".data

/-- Embedding of `fix_drive_url` from the source:

```python
if not isinstance(url, str) or "drive.google.com" not in url:
    return url
file_id = ""
if "/file/d/" in url:
    file_id = url.split("/file/d/")[1].split("/")[0]
elif "id=" in url:
    parts = url.split("id=")[1].split("&")
    file_id = parts[0]
elif "open?" in url and "id=" in url:
    file_id = url.split("id=")[1].split("&")[0]
if file_id:
    return f"https://drive.google.com/thumbnail?id={file_id}&sz=w1000"
return url
``` -/
def fixDriveUrlChars (url : List Char) : List Char :=
  if hasSubstr hostChars url then
    let file_id :=
      if hasSubstr fileDChars url then
        (pysplit ['/'] ((pysplit fileDChars url).getD 1 [])).getD 0 []
      else if hasSubstr idEqChars url then
        (pysplit ['&'] ((pysplit idEqChars url).getD 1 [])).getD 0 []
      else if hasSubstr "open?".data url && hasSubstr idEqChars url then
        (pysplit ['&'] ((pysplit idEqChars url).getD 1 [])).getD 0 []
      else []
    if file_id ≠ [] then thumbPre ++ file_id ++ thumbSuf else url
  else url

/-- String-level wrapper of the Drive-link rewriter. -/
def fix_drive_url (url : String) : String := ⟨fixDriveUrlChars url.data⟩

/-! ## Concrete mapped rows used in examples -/

/-- The Atlas Shrugged row of the spec's running example. -/
def rowA : SRow := ⟨"7", "Atlas Shrugged", "250", "A3", "", "7 atlas shrugged 250 a3"⟩

/-- The Hobbit row of the spec's running example. -/
def rowH : SRow := ⟨"12", "The Hobbit", "300", "B1", "", "12 the hobbit 300 b1"⟩

/-! ## The Field Mapper: DataFrame model and `apply_mapping`

A pandas DataFrame of string cells is modelled columnar-order faithfully:
an ordered list of column names, and each row an ordered association list
from column name to cell value (well-formedness — each row's key list
equals the column list — is a hypothesis of the structural theorems). -/

/-- A row: ordered (column name, cell value) pairs. -/
abbrev Row := List (String × String)

/-- A DataFrame of string cells. -/
structure DF where
  cols : List String
  rows : List Row
deriving DecidableEq

/-- A mapping (Python dict, insertion-ordered): app field ↦ sheet column. -/
abbrev Mapping := List (String × String)

/-- The app-field list `APP_FIELDS` of the source. -/
def APP_FIELDS : List String := ["BK_Number", "BK_name", "BK_rate", "BK_row", "BK_image"]

/-- The mandatory-field list `required_fields` of the source
(`# BK_image is optional`). -/
def required_fields : List String := ["BK_Number", "BK_name", "BK_rate", "BK_row"]

/-- The key list of a row. -/
def keysOf (r : Row) : List String := r.map Prod.fst

/-- Dict lookup `mapping[k]` (`none` when `k not in mapping`). -/
def lookupMap (m : Mapping) (k : String) : Option String :=
  (m.find? (fun p => p.1 == k)).map Prod.snd

/-- Python `k not in mapping or not mapping[k]`. -/
def unsetF (m : Mapping) (k : String) : Bool :=
  match lookupMap m k with
  | none => true
  | some v => v == ""

/-- Cell access `df2[c]` for a single row: the value at the first entry with key `c`
(empty when absent). -/
def lookupRow (r : Row) (c : String) : String :=
  ((r.find? (fun p => p.1 == c)).map Prod.snd).getD ""

/-- The dict comprehension `rename_map` of the source —
for a source column, the app field it is renamed to; a later `k` in
`APP_FIELDS` order overwrites an earlier one assigned the same source. -/
def renameOf (m : Mapping) (src : String) : Option String :=
  (APP_FIELDS.filter (fun k => lookupMap m k == some src && src != "")).getLast?

/-- Renaming `df.rename(columns=rename_map)` on one column name. -/
def renameCol (m : Mapping) (c : String) : String := (renameOf m c).getD c

/-- Renaming `df.rename(columns=rename_map)` on one row. -/
def renameRow (m : Mapping) (r : Row) : Row := r.map (fun p => (renameCol m p.1, p.2))

/-- Cell cleaning `.astype(str).replace(["nan", "None", "<NA>"], "").str.strip()`. -/
def cleanVal (s : String) : String :=
  trimStr (if s == "nan" || s == "None" || s == "<NA>" then "" else s)

/-- Per-column cleaning; `BK_image` additionally goes through
`.apply(fix_drive_url)`. -/
def cleanF (c : String) (v : String) : String :=
  if c == "BK_image" then fix_drive_url (cleanVal v) else cleanVal v

/-- Column list after one step of the `for c in APP_FIELDS` loop: the
frame keeps its columns when `c` exists, otherwise `df2[c] = ""` appends
a new column. -/
def stepCols (c : String) (cols : List String) : List String :=
  if cols.contains c then cols else cols ++ [c]

/-- One step of the `for c in APP_FIELDS` loop on a single row, given the
frame's current column list: clean the column in place when present,
otherwise append the default empty cell. -/
def tfun (c : String) (cols : List String) (r : Row) : Row :=
  if cols.contains c then
    r.map (fun p => if p.1 == c then (p.1, cleanF c p.2) else p)
  else r ++ [(c, "")]

/-- One step of the `for c in APP_FIELDS` loop on the whole frame. -/
def transformOrAdd (c : String) (df : DF) : DF :=
  ⟨stepCols c df.cols, df.rows.map (tfun c df.cols)⟩

/-- The `for c in APP_FIELDS` loop. -/
def fieldsPipe (fs : List String) (df : DF) : DF :=
  match fs with
  | [] => df
  | c :: fs' => fieldsPipe fs' (transformOrAdd c df)

/-- The column list produced by the loop. -/
def colsAfter (fs : List String) (cols : List String) : List String :=
  match fs with
  | [] => cols
  | c :: fs' => colsAfter fs' (stepCols c cols)

/-- The effect of the loop on a single row. -/
def pipeFieldsRow (fs : List String) (cols : List String) (r : Row) : Row :=
  match fs with
  | [] => r
  | c :: fs' => pipeFieldsRow fs' (stepCols c cols) (tfun c cols r)

/-- The `_search` blob of one (already cleaned) row:
`(BK_Number + " " + BK_name + " " + BK_rate + " " + BK_row).lower()`. -/
def searchOf (r : Row) : String :=
  lowerStr (lookupRow r "BK_Number" ++ " " ++ lookupRow r "BK_name" ++ " " ++
    lookupRow r "BK_rate" ++ " " ++ lookupRow r "BK_row")

/-- Assignment of the search column on a single row (overwrite when the column
exists, append otherwise). -/
def sfun (cols : List String) (r : Row) : Row :=
  if cols.contains "_search" then
    r.map (fun p => if p.1 == "_search" then (p.1, searchOf r) else p)
  else r ++ [("_search", searchOf r)]

/-- Assignment of the search column on the whole frame. -/
def addSearch (df : DF) : DF :=
  ⟨stepCols "_search" df.cols, df.rows.map (sfun df.cols)⟩

/-- The two `ValueError`s `apply_mapping` raises, with their payloads:
the missing mandatory fields, or the unknown column together with the
verbatim list of available columns. -/
inductive MapError where
  | mappingIncomplete (missing : List String)
  | columnNotFound (col : String) (available : List String)
deriving DecidableEq

instance {ε α : Type} [DecidableEq ε] [DecidableEq α] : DecidableEq (Except ε α) := fun a b =>
  match a, b with
  | .error e1, .error e2 =>
    if h : e1 = e2 then .isTrue (h ▸ rfl) else .isFalse (fun hh => h (Except.error.inj hh))
  | .ok v1, .ok v2 =>
    if h : v1 = v2 then .isTrue (h ▸ rfl) else .isFalse (fun hh => h (Except.ok.inj hh))
  | .error _, .ok _ => .isFalse (fun hh => Except.noConfusion hh)
  | .ok _, .error _ => .isFalse (fun hh => Except.noConfusion hh)

/-- Embedding of `apply_mapping(df, mapping)`:

```python
required_fields = ["BK_Number", "BK_name", "BK_rate", "BK_row"]
missing = [k for k in required_fields if k not in mapping or not mapping[k]]
if missing:
    raise ValueError(f"Mapping not set for mandatory fields: {missing}")
for app_col, sheet_col in mapping.items():
    if sheet_col not in df.columns:
        raise ValueError(f"Mapped column '{sheet_col}' not found. Found: ...")
rename_map = {mapping[k]: k for k in APP_FIELDS if k in mapping and mapping[k]}
df2 = df.rename(columns=rename_map)
for c in APP_FIELDS: ...  # clean in place or default to ""
df2["_search"] = (...).str.lower()
``` -/
def apply_mapping (df : DF) (m : Mapping) : Except MapError DF :=
  if required_fields.filter (fun k => unsetF m k) ≠ [] then
    .error (.mappingIncomplete (required_fields.filter (fun k => unsetF m k)))
  else
    match m.find? (fun kv => !(df.cols.contains kv.2)) with
    | some kv => .error (.columnNotFound kv.2 df.cols)
    | none =>
      .ok (addSearch (fieldsPipe APP_FIELDS
        ⟨df.cols.map (renameCol m), df.rows.map (renameRow m)⟩))

/-! ## Concrete frames and mappings used in examples -/

/-- The spec's running example as a raw sheet. -/
def dfEx : DF := ⟨["No", "Name", "Rate", "Rack"],
  [[("No", "7"), ("Name", "Atlas Shrugged"), ("Rate", "250"), ("Rack", "A3")]]⟩

/-- A complete mapping for `dfEx` leaving `BK_image` absent. -/
def mEx : Mapping :=
  [("BK_Number", "No"), ("BK_name", "Name"), ("BK_rate", "Rate"), ("BK_row", "Rack")]

/-- The mapped row `apply_mapping dfEx mEx` produces. -/
def rowEx : Row :=
  [("BK_Number", "7"), ("BK_name", "Atlas Shrugged"), ("BK_rate", "250"),
    ("BK_row", "A3"), ("BK_image", ""), ("_search", "7 atlas shrugged 250 a3")]

/-- The mapped frame `apply_mapping dfEx mEx` produces. -/
def outEx : DF :=
  ⟨["BK_Number", "BK_name", "BK_rate", "BK_row", "BK_image", "_search"], [rowEx]⟩

/-- C4's table: columns for Identifier, DisplayName, Location only. -/
def dfC4 : DF := ⟨["A", "B", "D"], [[("A", "7"), ("B", "Atlas Shrugged"), ("D", "A3")]]⟩

/-- C4's mapping: Identifier, DisplayName, Location assigned, Price unset. -/
def mC4 : Mapping := [("BK_Number", "A"), ("BK_name", "B"), ("BK_row", "D")]

/-- C5's table: none of the mapped columns exist. -/
def dfC5 : DF := ⟨["Z"], []⟩

/-- C5's mapping: `BK_name` and `BK_rate` unassigned, and the assigned
columns do not exist in `dfC5` either. -/
def mC5 : Mapping := [("BK_Number", "A"), ("BK_row", "D")]

/-- C6's table. -/
def dfC6 : DF := ⟨["A", "B", "C", "D"], []⟩

/-- C6's mapping: all mandatory fields assigned, but `BK_Number` is
assigned the non-existent column `"X"`. -/
def mC6 : Mapping := [("BK_Number", "X"), ("BK_name", "B"), ("BK_rate", "C"), ("BK_row", "D")]

/-- C7's table. -/
def dfC7 : DF :=
  ⟨["A", "B", "C", "D"], [[("A", "7"), ("B", "Atlas Shrugged"), ("C", "250"), ("D", "A3")]]⟩

/-- C7's mapping with the image entry present as the empty string, as the
admin UI always submits when the optional image column is left unset. -/
def mC7 : Mapping :=
  [("BK_Number", "A"), ("BK_name", "B"), ("BK_rate", "C"), ("BK_row", "D"), ("BK_image", "")]

/-- C7's mapping with the image entry absent from the dict. -/
def mC7b : Mapping :=
  [("BK_Number", "A"), ("BK_name", "B"), ("BK_rate", "C"), ("BK_row", "D")]

/-- C10's table: column `"X"` shared by two app fields below. -/
def dfC10 : DF := ⟨["X", "C", "D"], [[("X", "5"), ("C", "99"), ("D", "B2")]]⟩

/-- C10's mapping: `BK_Number` and `BK_name` both assigned column `"X"`. -/
def mC10 : Mapping :=
  [("BK_Number", "X"), ("BK_name", "X"), ("BK_rate", "C"), ("BK_row", "D")]

end BookStall

namespace BookStall

/-! ## Basic lemmas about the string primitives -/

theorem trimChars_cons_ws {c : Char} (h : c.isWhitespace = true) (l : List Char) :
    trimChars (c :: l) = trimChars l := by
  simp [trimChars, List.dropWhile, h]

theorem trimChars_append_ws {c : Char} (h : c.isWhitespace = true) (l : List Char) :
    trimChars (l ++ [c]) = trimChars l := by
  unfold trimChars
  rw [List.dropWhile_append]
  by_cases he : (l.dropWhile Char.isWhitespace).isEmpty = true
  · rw [if_pos he]
    rw [List.isEmpty_iff] at he
    rw [he]
    simp [List.dropWhile, h]
  · rw [if_neg he]
    rw [List.reverse_append]
    simp [List.dropWhile, h]

theorem lowerStr_append (s t : String) :
    lowerStr (s ++ t) = lowerStr s ++ lowerStr t := by
  apply String.ext
  simp [lowerStr, String.data_append]

theorem trimStr_pad (q : String) :
    trimStr ("  " ++ q ++ " ") = trimStr q := by
  apply String.ext
  show trimChars ("  " ++ q ++ " ").data = trimChars q.data
  rw [String.data_append, String.data_append]
  show trimChars ([' ', ' '] ++ q.data ++ [' ']) = trimChars q.data
  rw [trimChars_append_ws (by decide)]
  show trimChars (' ' :: ' ' :: q.data) = trimChars q.data
  rw [trimChars_cons_ws (by decide), trimChars_cons_ws (by decide)]

theorem trimStr_lowerStr_pad (q : String) :
    trimStr (lowerStr ("  " ++ q ++ " ")) = trimStr (lowerStr q) := by
  rw [lowerStr_append, lowerStr_append]
  have h2 : lowerStr "  " = "  " := by decide
  have h1 : lowerStr " " = " " := by decide
  rw [h1, h2, trimStr_pad]

/-! ## Claims C1, C3, C8: the query engine -/

/-- C1 counterexample: the claim predicts that any query whose §3
normalization is non-empty returns exactly the rows whose SearchKey
contains that normalized query. For the query with a doubled internal
space the normalized query "atlas shrugged" is non-empty and is contained
in the first row's SearchKey, yet `performSearch` returns no rows: the
code matches against the query with its internal whitespace preserved. -/
theorem C1_counterexample :
    specNormalize "atlas  shrugged" ≠ "" ∧
    strIncludes rowA._search (specNormalize "atlas  shrugged") = true ∧
    performSearch [rowA, rowH] "atlas  shrugged" "all" none ≠
      List.filter (fun r => strIncludes r._search (specNormalize "atlas  shrugged"))
        [rowA, rowH] := by
  refine ⟨by decide, by decide, by decide⟩

/-- C1 (amended): under Auto ('all') mode, a query that is empty after
trimming returns zero rows; a query that is non-empty after trimming
returns exactly the rows whose `_search` key contains the trimmed,
lower-cased query (internal whitespace preserved) as a contiguous
substring, and the result is a sublist of the input (original relative
order, no duplication). -/
theorem C1_filter_semantics (rows : List SRow) (q : String) :
    (trimStr q = "" → performSearch rows q "all" none = []) ∧
    (trimStr q ≠ "" → performSearch rows q "all" none =
      rows.filter (fun r => strIncludes r._search (trimStr (lowerStr q)))) ∧
    (performSearch rows q "all" none).Sublist rows := by
  refine ⟨fun h => ?_, fun h => ?_, ?_⟩
  · simp [performSearch, h]
  · simp [performSearch, h]
  · by_cases h : trimStr q = ""
    · simp [performSearch, h]
    · simp [performSearch, h]

/-- C1 witness: the amended theorem applied to a concrete row set and
query with surrounding whitespace and upper-case letters. -/
theorem C1_filter_semantics_witness :
    performSearch [rowA, rowH] " HOBBIT  " "all" none = [rowH] := by
  have h := (C1_filter_semantics [rowA, rowH] " HOBBIT  ").2.1 (by decide)
  rw [h]
  decide

/-- C3 counterexample: two queries that differ only by internal
whitespace (and have identical §3 normalizations) produce different
result rows, because the code never collapses internal whitespace runs. -/
theorem C3_counterexample :
    specNormalize "the  hobbit" = specNormalize "the hobbit" ∧
    performSearch [rowA, rowH] "the  hobbit" "all" none ≠
      performSearch [rowA, rowH] "the hobbit" "all" none := by
  refine ⟨by decide, by decide⟩

theorem toNat_ofNat_valid (n : Nat) (h : n.isValidChar) : (Char.ofNat n).toNat = n := by
  unfold Char.ofNat
  rw [dif_pos h]
  unfold Char.ofNatAux Char.toNat
  simp [UInt32.toNat]

theorem toLower_fix (c : Char) (h : ¬(c.toNat ≥ 65 ∧ c.toNat ≤ 90)) :
    Char.toLower c = c := by
  unfold Char.toLower
  rw [if_neg h]

theorem toLower_toNat_shift (c : Char) (h : c.toNat ≥ 65 ∧ c.toNat ≤ 90) :
    (Char.toLower c).toNat = c.toNat + 32 := by
  unfold Char.toLower
  rw [if_pos h]
  exact toNat_ofNat_valid _ (Or.inl (by omega))

theorem toLower_idem (c : Char) : (Char.toLower c).toLower = Char.toLower c := by
  by_cases h : c.toNat ≥ 65 ∧ c.toNat ≤ 90
  · have hs := toLower_toNat_shift c h
    exact toLower_fix _ (by rw [hs]; omega)
  · rw [toLower_fix c h]
    exact toLower_fix c h

theorem isWhitespace_toLower (c : Char) :
    (Char.toLower c).isWhitespace = c.isWhitespace := by
  by_cases h : c.toNat ≥ 65 ∧ c.toNat ≤ 90
  · have hs := toLower_toNat_shift c h
    have h1 : (Char.toLower c).isWhitespace = false := by
      unfold Char.isWhitespace
      simp only [Bool.or_eq_false_iff, decide_eq_false_iff_not]
      refine ⟨⟨⟨?_, ?_⟩, ?_⟩, ?_⟩
      · intro he
        rw [he, show (' ' : Char).toNat = 32 from rfl] at hs
        omega
      · intro he
        rw [he, show ('\t' : Char).toNat = 9 from rfl] at hs
        omega
      · intro he
        rw [he, show ('\x0d' : Char).toNat = 13 from rfl] at hs
        omega
      · intro he
        rw [he, show ('\n' : Char).toNat = 10 from rfl] at hs
        omega
    have h2 : c.isWhitespace = false := by
      unfold Char.isWhitespace
      simp only [Bool.or_eq_false_iff, decide_eq_false_iff_not]
      refine ⟨⟨⟨?_, ?_⟩, ?_⟩, ?_⟩ <;> intro he <;> subst he
      · exact absurd h.1 (by decide)
      · exact absurd h.1 (by decide)
      · exact absurd h.1 (by decide)
      · exact absurd h.1 (by decide)
    rw [h1, h2]
  · rw [toLower_fix c h]

theorem dropWhile_ws_map_toLower (l : List Char) :
    (l.map Char.toLower).dropWhile Char.isWhitespace =
      (l.dropWhile Char.isWhitespace).map Char.toLower := by
  induction l with
  | nil => rfl
  | cons c t ih =>
    simp only [List.map_cons, List.dropWhile_cons, isWhitespace_toLower c]
    cases hw : c.isWhitespace with
    | true => simpa using ih
    | false => simp

theorem trimChars_map_toLower (l : List Char) :
    trimChars (l.map Char.toLower) = (trimChars l).map Char.toLower := by
  unfold trimChars
  rw [dropWhile_ws_map_toLower, ← List.map_reverse, dropWhile_ws_map_toLower,
    ← List.map_reverse]

theorem trimStr_lowerStr_comm (q : String) :
    trimStr (lowerStr q) = lowerStr (trimStr q) := by
  apply String.ext
  show trimChars (q.data.map Char.toLower) = (trimChars q.data).map Char.toLower
  exact trimChars_map_toLower q.data

theorem lowerStr_eq_nil_iff (s : String) : lowerStr s = "" ↔ s = "" := by
  constructor
  · intro h
    have h2 : s.data.map Char.toLower = ([] : List Char) := by
      have : (lowerStr s).data = ("" : String).data := by rw [h]
      exact this
    exact String.ext (by simpa using h2)
  · rintro rfl
    rfl

theorem trim_blank_iff_lower (q : String) :
    (trimStr (lowerStr q) = "") ↔ (trimStr q = "") := by
  rw [trimStr_lowerStr_comm, lowerStr_eq_nil_iff]

theorem trimChars_ws_append_right (p2 : List Char)
    (h2 : ∀ c ∈ p2, c.isWhitespace = true) :
    ∀ l, trimChars (l ++ p2) = trimChars l := by
  induction p2 with
  | nil =>
    intro l
    rw [List.append_nil]
  | cons c p2' ih =>
    intro l
    have hshape : l ++ (c :: p2') = (l ++ [c]) ++ p2' := by simp
    rw [hshape, ih (fun x hx => h2 x (List.mem_cons_of_mem c hx)) (l ++ [c]),
      trimChars_append_ws (h2 c (List.mem_cons_self c p2')) l]

theorem trimChars_ws_append_left (p1 : List Char)
    (h1 : ∀ c ∈ p1, c.isWhitespace = true) :
    ∀ l, trimChars (p1 ++ l) = trimChars l := by
  induction p1 with
  | nil =>
    intro l
    rfl
  | cons c p1' ih =>
    intro l
    rw [show (c :: p1') ++ l = c :: (p1' ++ l) from rfl,
      trimChars_cons_ws (h1 c (List.mem_cons_self c p1')),
      ih (fun x hx => h1 x (List.mem_cons_of_mem c hx)) l]

theorem trimStr_ws_pad (pre q post : String)
    (h1 : ∀ c ∈ pre.data, c.isWhitespace = true)
    (h2 : ∀ c ∈ post.data, c.isWhitespace = true) :
    trimStr (pre ++ q ++ post) = trimStr q := by
  apply String.ext
  show trimChars ((pre ++ q ++ post).data) = trimChars q.data
  rw [String.data_append, String.data_append]
  rw [trimChars_ws_append_right post.data h2 (pre.data ++ q.data),
    trimChars_ws_append_left pre.data h1 q.data]

/-- C3 (amended): before matching, the code normalizes the query only by
lower-casing and stripping leading/trailing whitespace; internal runs of
whitespace are preserved. First conjunct: for every row set and every
query that is non-blank after trimming, the filter matches exactly the
trimmed, lower-cased query as a substring (this is the whole
normalization — no run collapsing). Second conjunct: for every row set,
query and whitespace-only paddings, surrounding whitespace does not
change the result rows. Third conjunct: for every row set, two queries
that agree after lower-casing (in particular, queries differing only in
letter case) yield the same result rows. -/
theorem C3_normalization :
    (∀ (rows : List SRow) (q : String), trimStr q ≠ "" →
      performSearch rows q "all" none =
        rows.filter (fun r => strIncludes r._search (trimStr (lowerStr q)))) ∧
    (∀ (rows : List SRow) (q pre post : String),
      (∀ c ∈ pre.data, c.isWhitespace = true) →
      (∀ c ∈ post.data, c.isWhitespace = true) →
      performSearch rows (pre ++ q ++ post) "all" none =
        performSearch rows q "all" none) ∧
    (∀ (rows : List SRow) (q1 q2 : String), lowerStr q1 = lowerStr q2 →
      performSearch rows q1 "all" none = performSearch rows q2 "all" none) := by
  refine ⟨?_, ?_, ?_⟩
  · intro rows q h
    simp [performSearch, h]
  · intro rows q pre post h1 h2
    have hl1 : ∀ c ∈ (lowerStr pre).data, c.isWhitespace = true := by
      intro c hc
      obtain ⟨c0, hc0, rfl⟩ := List.mem_map.mp hc
      rw [isWhitespace_toLower c0]
      exact h1 c0 hc0
    have hl2 : ∀ c ∈ (lowerStr post).data, c.isWhitespace = true := by
      intro c hc
      obtain ⟨c0, hc0, rfl⟩ := List.mem_map.mp hc
      rw [isWhitespace_toLower c0]
      exact h2 c0 hc0
    have hguard : trimStr (pre ++ q ++ post) = trimStr q := trimStr_ws_pad pre q post h1 h2
    have hneedle : trimStr (lowerStr (pre ++ q ++ post)) = trimStr (lowerStr q) := by
      rw [lowerStr_append, lowerStr_append]
      exact trimStr_ws_pad (lowerStr pre) (lowerStr q) (lowerStr post) hl1 hl2
    unfold performSearch
    rw [hguard, hneedle]
  · intro rows q1 q2 hq
    have hneedle : trimStr (lowerStr q1) = trimStr (lowerStr q2) := by rw [hq]
    have hguard : (trimStr q1 = "") ↔ (trimStr q2 = "") := by
      rw [← trim_blank_iff_lower q1, ← trim_blank_iff_lower q2, hq]
    unfold performSearch
    by_cases hb : trimStr q1 = ""
    · rw [if_pos hb, if_pos (hguard.mp hb)]
    · rw [if_neg hb, if_neg (fun hh => hb (hguard.mpr hh)), hneedle]

/-- C3 witness: the three conjuncts at concrete inputs — padding
" HOBBIT  " with whitespace, interchanging "HOBBIT" and "hobbit", and
the computed result rows. -/
theorem C3_normalization_witness :
    performSearch [rowA, rowH] " HOBBIT  " "all" none =
      performSearch [rowA, rowH] "HOBBIT" "all" none ∧
    performSearch [rowA, rowH] "HOBBIT" "all" none =
      performSearch [rowA, rowH] "hobbit" "all" none ∧
    performSearch [rowA, rowH] "hobbit" "all" none = [rowH] := by
  refine ⟨?_, ?_, ?_⟩
  · have h := C3_normalization.2.1 [rowA, rowH] "HOBBIT" " " "  " (by decide) (by decide)
    rw [show (" " ++ "HOBBIT" ++ "  " : String) = " HOBBIT  " from by decide] at h
    exact h
  · exact C3_normalization.2.2 [rowA, rowH] "HOBBIT" "hobbit" (by decide)
  · have h := C3_normalization.1 [rowA, rowH] "hobbit" (by decide)
    rw [h]
    decide

/-- C8: when the search component runs an exact-identifier lookup
(`mode === 'single'` with a non-empty `exactId`, reached from a non-blank
query), the result is exactly the rows whose `BK_Number` is string-equal
to the id — equality, not containment. -/
theorem C8_filterByIdentifier (rows : List SRow) (q id : String)
    (hq : trimStr q ≠ "") (hid : id ≠ "") :
    performSearch rows q "single" (some id) =
      rows.filter (fun r => r.BK_Number == id) ∧
    ∀ r ∈ performSearch rows q "single" (some id), r.BK_Number = id := by
  have hbranch : performSearch rows q "single" (some id) =
      rows.filter (fun r => r.BK_Number == id) := by
    unfold performSearch
    rw [if_neg hq]
    have : (("single" : String) == "single" &&
        (match some id with | none => false | some s => !(s == ""))) = true := by
      simp [hid]
    rw [if_pos this]
    rfl
  refine ⟨hbranch, fun r hr => ?_⟩
  rw [hbranch] at hr
  have := (List.mem_filter.mp hr).2
  exact eq_of_beq this

/-- C8 witness: with rows having identifiers "7" and "12", looking up "7"
returns exactly the Atlas Shrugged row, and looking up "70" (no such
identifier, though "7" is a substring of it) returns zero rows. -/
theorem C8_filterByIdentifier_witness :
    performSearch [rowA, rowH] "x" "single" (some "7") = [rowA] ∧
    performSearch [rowA, rowH] "x" "single" (some "70") = [] := by
  constructor
  · rw [(C8_filterByIdentifier [rowA, rowH] "x" "7" (by decide) (by decide)).1]
    decide
  · rw [(C8_filterByIdentifier [rowA, rowH] "x" "70" (by decide) (by decide)).1]
    decide

/-! ## Lemmas about `pysplit` and `hasSubstr` -/

theorem pysplit_nil (sep : List Char) : pysplit sep [] = [[]] := by
  simp [pysplit]

theorem pysplit_pos (sep s : List Char) (hs : s ≠ [])
    (h1 : sep ≠ []) (h2 : sep.isPrefixOf s = true) :
    pysplit sep s = [] :: pysplit sep (s.drop sep.length) := by
  cases s with
  | nil => exact absurd rfl hs
  | cons c t =>
    rw [pysplit]
    rw [dif_pos ⟨h1, h2⟩]

theorem pysplit_neg (sep : List Char) (c : Char) (t u : List Char) (us : List (List Char))
    (h : sep.isPrefixOf (c :: t) = false) (ht : pysplit sep t = u :: us) :
    pysplit sep (c :: t) = (c :: u) :: us := by
  rw [pysplit]
  rw [dif_neg (fun hc => by simp [hc.2] at h)]
  rw [ht]

theorem pysplit_no_occ (sep s : List Char)
    (h : ∀ n, sep.isPrefixOf (s.drop n) = false) :
    pysplit sep s = [s] := by
  induction s with
  | nil => exact pysplit_nil sep
  | cons c t ih =>
    have h0 := h 0
    rw [List.drop_zero] at h0
    have ht := ih (fun n => by simpa [List.drop_succ_cons] using h (n + 1))
    exact pysplit_neg sep c t t [] h0 ht

theorem pysplit_append (sep a b : List Char) (hsep : sep ≠ [])
    (hfirst : ∀ n, n < a.length → sep.isPrefixOf ((a ++ (sep ++ b)).drop n) = false) :
    pysplit sep (a ++ (sep ++ b)) = a :: pysplit sep b := by
  induction a with
  | nil =>
    simp only [List.nil_append]
    have hpre : sep.isPrefixOf (sep ++ b) = true :=
      List.isPrefixOf_iff_prefix.mpr (List.prefix_append sep b)
    have hne : sep ++ b ≠ [] := by
      cases sep with
      | nil => exact absurd rfl hsep
      | cons c t => simp
    rw [pysplit_pos sep (sep ++ b) hne hsep hpre, List.drop_left]
  | cons c a' ih =>
    have h0 : sep.isPrefixOf (c :: (a' ++ (sep ++ b))) = false := by
      have := hfirst 0 (by simp)
      simpa using this
    have ih' : pysplit sep (a' ++ (sep ++ b)) = a' :: pysplit sep b := by
      apply ih
      intro n hn
      have := hfirst (n + 1) (by simp; omega)
      simpa [List.drop_succ_cons] using this
    have hshape : (c :: a') ++ (sep ++ b) = c :: (a' ++ (sep ++ b)) := by simp
    rw [hshape]
    exact pysplit_neg sep c (a' ++ (sep ++ b)) a' (pysplit sep b) h0 ih'

theorem hasSubstr_iff (need s : List Char) :
    hasSubstr need s = true ↔ ∃ n, need.isPrefixOf (s.drop n) = true := by
  induction s with
  | nil =>
    simp only [hasSubstr, List.drop_nil, List.isEmpty_iff]
    constructor
    · intro h
      exact ⟨0, by rw [h]; rfl⟩
    · rintro ⟨n, hn⟩
      cases need with
      | nil => rfl
      | cons c t => simp [List.isPrefixOf] at hn
  | cons c t ih =>
    simp only [hasSubstr, Bool.or_eq_true, ih]
    constructor
    · rintro (h | ⟨n, hn⟩)
      · exact ⟨0, by simpa using h⟩
      · exact ⟨n + 1, by simpa [List.drop_succ_cons] using hn⟩
    · rintro ⟨n, hn⟩
      cases n with
      | zero => exact Or.inl (by simpa using hn)
      | succ m => exact Or.inr ⟨m, by simpa [List.drop_succ_cons] using hn⟩

theorem drop_append_add (a b : List Char) (n : Nat) :
    (a ++ b).drop (a.length + n) = b.drop n := by
  rw [← List.drop_drop, List.drop_left]

theorem no_occ_after (sep pre tail : List Char) (hsep : sep ≠ [])
    (hOnce : ∀ n, n < (pre ++ (sep ++ tail)).length →
      sep.isPrefixOf ((pre ++ (sep ++ tail)).drop n) = true → n = pre.length) :
    ∀ n, sep.isPrefixOf (tail.drop n) = false := by
  intro n
  cases hp : sep.isPrefixOf (tail.drop n) with
  | false => rfl
  | true =>
    exfalso
    have hne : tail.drop n ≠ [] := by
      intro hnil
      rw [hnil] at hp
      cases sep with
      | nil => exact hsep rfl
      | cons x xs => simp [List.isPrefixOf] at hp
    have hlen : n < tail.length := by
      by_contra hge
      exact hne (List.drop_eq_nil_of_le (by omega))
    have hdropeq : (pre ++ (sep ++ tail)).drop (pre.length + (sep.length + n)) = tail.drop n := by
      rw [drop_append_add, drop_append_add]
    have hK : pre.length + (sep.length + n) < (pre ++ (sep ++ tail)).length := by
      simp [List.length_append]
      omega
    have := hOnce (pre.length + (sep.length + n)) hK (by rw [hdropeq]; exact hp)
    have hsl : 0 < sep.length := List.length_pos.mpr hsep
    omega

theorem singleton_isPrefixOf_cons (x c : Char) (t : List Char) :
    [x].isPrefixOf (c :: t) = (x == c) := by
  simp [List.isPrefixOf]

theorem no_singleton_occ {x : Char} (a : List Char) (hx : ∀ c ∈ a, c ≠ x) :
    ∀ n, [x].isPrefixOf (a.drop n) = false := by
  intro n
  by_cases hn : n < a.length
  · rw [List.drop_eq_getElem_cons hn, singleton_isPrefixOf_cons]
    have : a[n] ≠ x := hx _ (a.getElem_mem hn)
    simp [this]
    exact fun h => absurd h.symm this
  · rw [List.drop_eq_nil_of_le (by omega)]
    rfl

theorem no_singleton_prefix_within {x : Char} (a rest : List Char)
    (hx : ∀ c ∈ a, c ≠ x) :
    ∀ n, n < a.length → ([x].isPrefixOf ((a ++ rest).drop n)) = false := by
  intro n hn
  rw [List.drop_append_of_le_length (by omega)]
  rw [List.drop_eq_getElem_cons hn]
  rw [show a[n] :: a.drop (n + 1) ++ rest = a[n] :: (a.drop (n + 1) ++ rest) from rfl]
  rw [singleton_isPrefixOf_cons]
  have : a[n] ≠ x := hx _ (a.getElem_mem hn)
  simp
  exact fun h => absurd h.symm this

/-! ## Row-level lookup lemmas for the Field Mapper -/

theorem find?_map_keyfix (f : (String × String) → (String × String))
    (hf : ∀ p, (f p).1 = p.1) (k : String) (r : Row) :
    (r.map f).find? (fun p => p.1 == k) = (r.find? (fun p => p.1 == k)).map f := by
  induction r with
  | nil => rfl
  | cons p t ih =>
    by_cases hpk : (p.1 == k) = true
    · rw [List.map_cons, List.find?_cons_of_pos _ (by simp only [hf p]; exact hpk),
        @List.find?_cons_of_pos _ (fun q => q.1 == k) p t hpk]
      rfl
    · rw [List.map_cons, List.find?_cons_of_neg _ (by simp only [hf p]; exact hpk),
        @List.find?_cons_of_neg _ (fun q => q.1 == k) p t hpk]
      exact ih

theorem lookupRow_transform_ne (c k : String) (g : String → String) (r : Row) (hk : k ≠ c) :
    lookupRow (r.map (fun p => if p.1 == c then (p.1, g p.2) else p)) k = lookupRow r k := by
  unfold lookupRow
  rw [find?_map_keyfix _ (fun p => by by_cases h : p.1 = c <;> simp [h]) k r]
  cases hf : r.find? (fun p => p.1 == k) with
  | none => rfl
  | some p =>
    have hp1 : p.1 = k := by
      have := List.find?_some hf
      simpa using this
    have hne : ¬ p.1 = c := by rw [hp1]; exact hk
    simp [hne]

theorem lookupRow_transform_eq (c : String) (g : String → String) (r : Row)
    (hmem : c ∈ keysOf r) :
    lookupRow (r.map (fun p => if p.1 == c then (p.1, g p.2) else p)) c =
      g (lookupRow r c) := by
  unfold lookupRow
  rw [find?_map_keyfix _ (fun p => by by_cases h : p.1 = c <;> simp [h]) c r]
  have hsome : (r.find? (fun p => p.1 == c)).isSome = true := by
    rw [List.find?_isSome]
    obtain ⟨p, hp, hp1⟩ := List.mem_map.mp hmem
    exact ⟨p, hp, by simp [hp1]⟩
  obtain ⟨p, hp⟩ := Option.isSome_iff_exists.mp hsome
  rw [hp]
  have hpc : p.1 = c := by
    have := List.find?_some hp
    simpa using this
  simp [hpc]

theorem lookupRow_append_ne (r : Row) (c k v : String) (hk : k ≠ c) :
    lookupRow (r ++ [(c, v)]) k = lookupRow r k := by
  unfold lookupRow
  rw [List.find?_append]
  cases hf : r.find? (fun p => p.1 == k) with
  | none =>
    have hone : List.find? (fun p => p.1 == k) [(c, v)] = none := by
      rw [List.find?_cons_of_neg _ (by simp; exact fun hh => hk hh.symm)]
      rfl
    rw [hone]
    rfl
  | some p => rfl

theorem lookupRow_append_self (r : Row) (c v : String) (hnone : c ∉ keysOf r) :
    lookupRow (r ++ [(c, v)]) c = v := by
  unfold lookupRow
  have hf : r.find? (fun p => p.1 == c) = none := by
    rw [List.find?_eq_none]
    intro p hp hpc
    exact hnone (List.mem_map.mpr ⟨p, hp, by simpa using hpc⟩)
  rw [List.find?_append, hf]
  rw [show List.find? (fun p => p.1 == c) [(c, v)] = some (c, v) from
    List.find?_cons_of_pos _ (by simp)]
  rfl

theorem lookupRow_tfun_ne (c : String) (cols : List String) (r : Row) (k : String)
    (hk : k ≠ c) :
    lookupRow (tfun c cols r) k = lookupRow r k := by
  unfold tfun
  by_cases h : cols.contains c
  · rw [if_pos h]
    exact lookupRow_transform_ne c k (cleanF c) r hk
  · rw [if_neg h]
    exact lookupRow_append_ne r c k "" hk

theorem lookupRow_tfun_eq (c : String) (cols : List String) (r : Row)
    (hkeys : keysOf r = cols) :
    lookupRow (tfun c cols r) c =
      if cols.contains c then cleanF c (lookupRow r c) else "" := by
  unfold tfun
  by_cases h : cols.contains c
  · rw [if_pos h, if_pos h]
    exact lookupRow_transform_eq c (cleanF c) r (by rw [hkeys]; simpa using h)
  · rw [if_neg h, if_neg h]
    exact lookupRow_append_self r c "" (by rw [hkeys]; simpa using h)

theorem keysOf_tfun (c : String) (cols : List String) (r : Row) (hkeys : keysOf r = cols) :
    keysOf (tfun c cols r) = stepCols c cols := by
  unfold tfun stepCols keysOf
  by_cases h : cols.contains c
  · rw [if_pos h, if_pos h, List.map_map]
    rw [show (Prod.fst ∘ fun p : String × String =>
        if p.1 == c then (p.1, cleanF c p.2) else p) = Prod.fst from ?_]
    · exact hkeys
    · funext p
      by_cases hp : p.1 = c <;> simp [hp]
  · rw [if_neg h, if_neg h, List.map_append]
    have hr : List.map Prod.fst r = cols := hkeys
    simp [hr]

theorem lookupRow_sfun_ne (cols : List String) (r : Row) (k : String)
    (hk : k ≠ "_search") :
    lookupRow (sfun cols r) k = lookupRow r k := by
  unfold sfun
  by_cases h : cols.contains "_search"
  · rw [if_pos h]
    exact lookupRow_transform_ne "_search" k (fun _ => searchOf r) r hk
  · rw [if_neg h]
    exact lookupRow_append_ne r "_search" k (searchOf r) hk

theorem contains_false_not_mem {l : List String} {a : String}
    (h : l.contains a = false) : a ∉ l := by
  simpa using h

theorem lookupRow_sfun_search (cols : List String) (r : Row)
    (hkeys : keysOf r = cols) (h : cols.contains "_search" = false) :
    lookupRow (sfun cols r) "_search" = searchOf r := by
  unfold sfun
  rw [if_neg (by simpa using h), lookupRow_append_self r "_search" (searchOf r)
    (by rw [hkeys]; exact contains_false_not_mem h)]

/-! ## Pipeline-level lemmas for the Field Mapper -/

theorem contains_stepCols_ne (c x : String) (cols : List String) (hx : x ≠ c) :
    (stepCols c cols).contains x = cols.contains x := by
  unfold stepCols
  by_cases h : cols.contains c
  · rw [if_pos h]
  · rw [if_neg h]
    cases hc : cols.contains x with
    | true =>
      have : x ∈ cols ++ [c] := List.mem_append_left _ (by simpa using hc)
      simpa using this
    | false =>
      have : x ∉ cols ++ [c] := by
        intro hmem
        rcases List.mem_append.mp hmem with hm | hm
        · exact absurd (by simpa using hm : x ∈ cols) (contains_false_not_mem hc)
        · exact hx (by simpa using hm)
      simpa using this

theorem contains_colsAfter_of_not_mem (fs : List String) (cols : List String) (x : String)
    (hx : x ∉ fs) (h : cols.contains x = false) :
    (colsAfter fs cols).contains x = false := by
  induction fs generalizing cols with
  | nil => exact h
  | cons c fs' ih =>
    simp only [colsAfter]
    refine ih _ (fun hh => hx (List.mem_cons_of_mem c hh)) ?_
    rw [contains_stepCols_ne c x cols (fun hh => hx (hh ▸ List.mem_cons_self c fs'))]
    exact h

theorem lookupRow_pipeFieldsRow_not_mem (fs : List String) (cols : List String) (r : Row)
    (k : String) (hk : k ∉ fs) :
    lookupRow (pipeFieldsRow fs cols r) k = lookupRow r k := by
  induction fs generalizing cols r with
  | nil => rfl
  | cons c fs' ih =>
    simp only [pipeFieldsRow]
    rw [ih _ _ (fun h => hk (List.mem_cons_of_mem c h))]
    exact lookupRow_tfun_ne c cols r k (fun h => hk (h ▸ List.mem_cons_self c fs'))

theorem keysOf_pipeFieldsRow (fs : List String) (cols : List String) (r : Row)
    (hkeys : keysOf r = cols) :
    keysOf (pipeFieldsRow fs cols r) = colsAfter fs cols := by
  induction fs generalizing cols r with
  | nil => simpa [pipeFieldsRow, colsAfter] using hkeys
  | cons c fs' ih =>
    simp only [pipeFieldsRow, colsAfter]
    exact ih _ _ (keysOf_tfun c cols r hkeys)

theorem lookupRow_pipeFieldsRow_mem (fs : List String) (cols : List String) (r : Row)
    (k : String) (hnd : fs.Nodup) (hk : k ∈ fs) (hkeys : keysOf r = cols) :
    lookupRow (pipeFieldsRow fs cols r) k =
      if cols.contains k then cleanF k (lookupRow r k) else "" := by
  induction fs generalizing cols r with
  | nil => cases hk
  | cons c fs' ih =>
    simp only [pipeFieldsRow]
    rcases List.mem_cons.mp hk with rfl | hk'
    · have hnotin : k ∉ fs' := (List.nodup_cons.mp hnd).1
      rw [lookupRow_pipeFieldsRow_not_mem fs' _ _ k hnotin]
      exact lookupRow_tfun_eq k cols r hkeys
    · have hknec : k ≠ c := by
        rintro rfl
        exact (List.nodup_cons.mp hnd).1 hk'
      rw [ih (stepCols c cols) (tfun c cols r) (List.nodup_cons.mp hnd).2 hk'
        (keysOf_tfun c cols r hkeys)]
      rw [contains_stepCols_ne c k cols hknec, lookupRow_tfun_ne c cols r k hknec]

theorem fieldsPipe_eq (fs : List String) (cols : List String) (rows : List Row) :
    fieldsPipe fs ⟨cols, rows⟩ = ⟨colsAfter fs cols, rows.map (pipeFieldsRow fs cols)⟩ := by
  induction fs generalizing cols rows with
  | nil =>
    simp only [fieldsPipe, colsAfter, pipeFieldsRow]
    rw [show (rows.map fun r => r) = rows from List.map_id' rows]
  | cons c fs' ih =>
    simp only [fieldsPipe, transformOrAdd, colsAfter, pipeFieldsRow]
    rw [ih]
    rw [List.map_map]
    rfl

/-! ## Rename lemmas -/

theorem renameOf_spec (m : Mapping) (src k : String) (h : renameOf m src = some k) :
    k ∈ APP_FIELDS ∧ lookupMap m k = some src ∧ src ≠ "" := by
  unfold renameOf at h
  have hmem := List.mem_of_mem_getLast? h
  have := List.mem_filter.mp hmem
  refine ⟨this.1, ?_, ?_⟩
  · have hb := this.2
    simp only [Bool.and_eq_true] at hb
    simpa using hb.1
  · have hb := this.2
    simp only [Bool.and_eq_true] at hb
    simpa using hb.2

theorem renameCol_eq_iff (m : Mapping) (c k src : String)
    (hc : c ∉ APP_FIELDS) (hren : renameOf m src = some k) :
    renameCol m c = k ↔ c = src := by
  constructor
  · intro h
    unfold renameCol at h
    cases hro : renameOf m c with
    | none =>
      rw [hro] at h
      simp at h
      subst h
      exact absurd (renameOf_spec m src c hren).1 hc
    | some k' =>
      rw [hro] at h
      simp at h
      subst h
      have h1 := (renameOf_spec m c k' hro).2.1
      have h2 := (renameOf_spec m src k' hren).2.1
      rw [h1] at h2
      exact Option.some.inj h2
  · rintro rfl
    unfold renameCol
    rw [hren]
    rfl

theorem keysOf_renameRow (m : Mapping) (r : Row) :
    keysOf (renameRow m r) = (keysOf r).map (renameCol m) := by
  unfold keysOf renameRow
  rw [List.map_map, List.map_map]
  rfl

theorem lookupRow_renameRow_target (m : Mapping) (r : Row) (src k : String)
    (hd : ∀ p ∈ r, p.1 ∉ APP_FIELDS)
    (hren : renameOf m src = some k) :
    lookupRow (renameRow m r) k = lookupRow r src := by
  induction r with
  | nil => rfl
  | cons p t ih =>
    have hp1 : p.1 ∉ APP_FIELDS := hd p (List.mem_cons_self p t)
    have hiff := renameCol_eq_iff m p.1 k src hp1 hren
    unfold renameRow
    unfold lookupRow
    simp only [List.map_cons]
    by_cases hc : p.1 = src
    · rw [List.find?_cons_of_pos _ (by simp [hiff.mpr hc]),
        List.find?_cons_of_pos _ (by simp [hc])]
      rfl
    · rw [List.find?_cons_of_neg _ (by simp; exact fun hh => hc (hiff.mp hh)),
        List.find?_cons_of_neg _ (by simp [hc])]
      exact ih (fun q hq => hd q (List.mem_cons_of_mem p hq))

theorem renamed_cols_not_contain (m : Mapping) (cols : List String) (k : String)
    (hd : ∀ c ∈ cols, c ∉ APP_FIELDS)
    (hk : k ∈ APP_FIELDS)
    (hnone : ∀ src, renameOf m src ≠ some k) :
    (cols.map (renameCol m)).contains k = false := by
  cases hcc : (cols.map (renameCol m)).contains k with
  | false => rfl
  | true =>
    exfalso
    have : k ∈ cols.map (renameCol m) := by simpa using hcc
    obtain ⟨c, hc, hck⟩ := List.mem_map.mp this
    unfold renameCol at hck
    cases hro : renameOf m c with
    | none =>
      rw [hro] at hck
      simp at hck
      exact hd c hc (hck ▸ hk)
    | some k' =>
      rw [hro] at hck
      simp at hck
      exact hnone c (hck ▸ hro)

theorem renamed_cols_contain_target (m : Mapping) (cols : List String) (src k : String)
    (hsrc : src ∈ cols) (hren : renameOf m src = some k) :
    (cols.map (renameCol m)).contains k = true := by
  have : k ∈ cols.map (renameCol m) :=
    List.mem_map.mpr ⟨src, hsrc, by unfold renameCol; rw [hren]; rfl⟩
  simpa using this

theorem renamed_cols_no_search (m : Mapping) (cols : List String)
    (hs : ∀ c ∈ cols, c ≠ "_search") :
    (cols.map (renameCol m)).contains "_search" = false := by
  cases hcc : (cols.map (renameCol m)).contains "_search" with
  | false => rfl
  | true =>
    exfalso
    have : "_search" ∈ cols.map (renameCol m) := by simpa using hcc
    obtain ⟨c, hc, hck⟩ := List.mem_map.mp this
    unfold renameCol at hck
    cases hro : renameOf m c with
    | none =>
      rw [hro] at hck
      simp at hck
      exact hs c hc hck
    | some k' =>
      rw [hro] at hck
      simp at hck
      subst hck
      exact absurd (renameOf_spec m c "_search" hro).1 (by decide)

/-! ## The master characterization of a successful `apply_mapping` -/

theorem apply_mapping_ok_inv (df : DF) (m : Mapping) (out : DF)
    (hok : apply_mapping df m = .ok out) :
    required_fields.filter (fun k => unsetF m k) = [] ∧
    m.find? (fun kv => !(df.cols.contains kv.2)) = none ∧
    out = addSearch (fieldsPipe APP_FIELDS
      ⟨df.cols.map (renameCol m), df.rows.map (renameRow m)⟩) := by
  unfold apply_mapping at hok
  by_cases h1 : required_fields.filter (fun k => unsetF m k) ≠ []
  · rw [if_pos h1] at hok
    exact absurd hok (by simp)
  · rw [if_neg h1] at hok
    cases h2 : m.find? (fun kv => !(df.cols.contains kv.2)) with
    | some kv =>
      rw [h2] at hok
      exact absurd hok (by simp)
    | none =>
      rw [h2] at hok
      exact ⟨not_not.mp h1, rfl, (Except.ok.inj hok).symm⟩

/-- The structural content of a successful `apply_mapping` run: row count
is preserved, each APP field of an output row is the cleaned cell of the
source column renamed onto it (or empty when no source column is renamed
onto it), and the `_search` entry is consistent with the output row's own
four text fields. -/
theorem apply_mapping_ok_lookup (df : DF) (m : Mapping) (out : DF)
    (hwf : ∀ r ∈ df.rows, keysOf r = df.cols)
    (hdisj : ∀ c ∈ df.cols, c ∉ APP_FIELDS)
    (hsearch : ∀ c ∈ df.cols, c ≠ "_search")
    (hok : apply_mapping df m = .ok out) :
    out.rows.length = df.rows.length ∧
    ∀ i (hi : i < df.rows.length) (hi' : i < out.rows.length),
      (∀ k src, renameOf m src = some k →
        lookupRow (out.rows.get ⟨i, hi'⟩) k =
          cleanF k (lookupRow (df.rows.get ⟨i, hi⟩) src)) ∧
      (∀ k, k ∈ APP_FIELDS → (∀ src, renameOf m src ≠ some k) →
        lookupRow (out.rows.get ⟨i, hi'⟩) k = "") ∧
      lookupRow (out.rows.get ⟨i, hi'⟩) "_search" =
        searchOf (out.rows.get ⟨i, hi'⟩) := by
  obtain ⟨hmiss, hfind, hout⟩ := apply_mapping_ok_inv df m out hok
  have hvals : ∀ kv ∈ m, df.cols.contains kv.2 = true := by
    intro kv hkv
    have := List.find?_eq_none.mp hfind kv hkv
    simpa using this
  have hrows : out.rows = (df.rows.map (renameRow m)).map
      (fun r => sfun (colsAfter APP_FIELDS (df.cols.map (renameCol m)))
        (pipeFieldsRow APP_FIELDS (df.cols.map (renameCol m)) r)) := by
    rw [hout, fieldsPipe_eq]
    unfold addSearch
    simp only [List.map_map]
    rfl
  have hns2 : (df.cols.map (renameCol m)).contains "_search" = false :=
    renamed_cols_no_search m df.cols hsearch
  have hns5 : (colsAfter APP_FIELDS (df.cols.map (renameCol m))).contains "_search" = false :=
    contains_colsAfter_of_not_mem APP_FIELDS _ "_search" (by decide) hns2
  constructor
  · rw [hrows]
    simp
  · intro i hi hi'
    have hget : out.rows.get ⟨i, hi'⟩ =
        sfun (colsAfter APP_FIELDS (df.cols.map (renameCol m)))
          (pipeFieldsRow APP_FIELDS (df.cols.map (renameCol m))
            (renameRow m (df.rows.get ⟨i, hi⟩))) := by
      rw [List.get_eq_getElem, List.get_eq_getElem]
      simp only [hrows, List.getElem_map]
    set r0 := df.rows.get ⟨i, hi⟩ with hr0
    have hkeys0 : keysOf r0 = df.cols := hwf r0 (List.get_mem df.rows i hi)
    have hd0 : ∀ p ∈ r0, p.1 ∉ APP_FIELDS := by
      intro p hp
      exact hdisj p.1 (by rw [← hkeys0]; exact List.mem_map.mpr ⟨p, hp, rfl⟩)
    have hkeys2 : keysOf (renameRow m r0) = df.cols.map (renameCol m) := by
      rw [keysOf_renameRow, hkeys0]
    have hkeys5 : keysOf (pipeFieldsRow APP_FIELDS (df.cols.map (renameCol m))
        (renameRow m r0)) = colsAfter APP_FIELDS (df.cols.map (renameCol m)) :=
      keysOf_pipeFieldsRow APP_FIELDS _ _ hkeys2
    refine ⟨?_, ?_, ?_⟩
    · intro k src hren
      obtain ⟨hkAF, hlk, hsrcne⟩ := renameOf_spec m src k hren
      have hkns : k ≠ "_search" := by
        intro hh
        rw [hh] at hkAF
        exact absurd hkAF (by decide)
      have hsrcmem : src ∈ df.cols := by
        unfold lookupMap at hlk
        cases hfm : m.find? (fun p => p.1 == k) with
        | none =>
          rw [hfm] at hlk
          exact absurd hlk (by simp)
        | some p =>
          rw [hfm] at hlk
          have hp2 : p.2 = src := by simpa using hlk
          have hpm := List.mem_of_find?_eq_some hfm
          have hcv := hvals p hpm
          rw [hp2] at hcv
          simpa using hcv
      have hcont : (df.cols.map (renameCol m)).contains k = true :=
        renamed_cols_contain_target m df.cols src k hsrcmem hren
      rw [hget, lookupRow_sfun_ne _ _ k hkns,
        lookupRow_pipeFieldsRow_mem APP_FIELDS _ _ k (by decide) hkAF hkeys2,
        hcont, if_pos rfl, lookupRow_renameRow_target m r0 src k hd0 hren]
    · intro k hkAF hnone
      have hkns : k ≠ "_search" := by
        intro hh
        rw [hh] at hkAF
        exact absurd hkAF (by decide)
      have hcont : (df.cols.map (renameCol m)).contains k = false :=
        renamed_cols_not_contain m df.cols k hdisj hkAF hnone
      rw [hget, lookupRow_sfun_ne _ _ k hkns,
        lookupRow_pipeFieldsRow_mem APP_FIELDS _ _ k (by decide) hkAF hkeys2, hcont]
      simp
    · rw [hget, lookupRow_sfun_search _ _ hkeys5 hns5]
      unfold searchOf
      rw [lookupRow_sfun_ne _ _ "BK_Number" (by decide),
        lookupRow_sfun_ne _ _ "BK_name" (by decide),
        lookupRow_sfun_ne _ _ "BK_rate" (by decide),
        lookupRow_sfun_ne _ _ "BK_row" (by decide)]

/-! ## Claim C9: the Drive-link rewriter -/

/-- C9: `fix_drive_url` maps every Drive-hosted URL with a path-embedded
identifier (`.../file/d/<ID>/...`, first conjunct) or a query-parameter
identifier (`id=<ID>` terminated by end-of-string or the next `&`, second
conjunct) to the canonical direct-content URL
`https://drive.google.com/thumbnail?id=<ID>&sz=w1000`, and returns inputs
on a different host (third conjunct) or host URLs without either
identifier marker (fourth conjunct) unchanged. -/
theorem C9_rewriteHostLink :
    (∀ pre id post,
      hasSubstr hostChars (pre ++ fileDChars ++ id ++ '/' :: post) = true →
      id ≠ [] →
      (∀ c ∈ id, c ≠ '/') →
      (∀ n, n < (pre ++ fileDChars ++ id ++ '/' :: post).length →
        fileDChars.isPrefixOf ((pre ++ fileDChars ++ id ++ '/' :: post).drop n) = true →
        n = pre.length) →
      fixDriveUrlChars (pre ++ fileDChars ++ id ++ '/' :: post) =
        thumbPre ++ id ++ thumbSuf) ∧
    (∀ pre id rest,
      hasSubstr hostChars (pre ++ idEqChars ++ id ++ rest) = true →
      hasSubstr fileDChars (pre ++ idEqChars ++ id ++ rest) = false →
      id ≠ [] →
      (∀ c ∈ id, c ≠ '&') →
      (rest = [] ∨ ∃ r', rest = '&' :: r') →
      (∀ n, n < (pre ++ idEqChars ++ id ++ rest).length →
        idEqChars.isPrefixOf ((pre ++ idEqChars ++ id ++ rest).drop n) = true →
        n = pre.length) →
      fixDriveUrlChars (pre ++ idEqChars ++ id ++ rest) =
        thumbPre ++ id ++ thumbSuf) ∧
    (∀ url, hasSubstr hostChars url = false → fixDriveUrlChars url = url) ∧
    (∀ url, hasSubstr hostChars url = true →
      hasSubstr fileDChars url = false → hasSubstr idEqChars url = false →
      fixDriveUrlChars url = url) := by
  refine ⟨?_, ?_, ?_, ?_⟩
  · intro pre id post hhost hid hslash hOnce
    have heq : pre ++ fileDChars ++ id ++ '/' :: post =
        pre ++ (fileDChars ++ (id ++ '/' :: post)) := by
      simp [List.append_assoc]
    rw [heq] at hhost hOnce ⊢
    have htail : ∀ n, fileDChars.isPrefixOf ((id ++ '/' :: post).drop n) = false :=
      no_occ_after fileDChars pre (id ++ '/' :: post) (by decide) hOnce
    have hfirst : ∀ n, n < pre.length →
        fileDChars.isPrefixOf ((pre ++ (fileDChars ++ (id ++ '/' :: post))).drop n) = false := by
      intro n hn
      cases hp : fileDChars.isPrefixOf ((pre ++ (fileDChars ++ (id ++ '/' :: post))).drop n) with
      | false => rfl
      | true =>
        exfalso
        have hlt : n < (pre ++ (fileDChars ++ (id ++ '/' :: post))).length := by
          simp [List.length_append]
          omega
        have := hOnce n hlt hp
        omega
    have hsplit1 : pysplit fileDChars (pre ++ (fileDChars ++ (id ++ '/' :: post))) =
        pre :: pysplit fileDChars (id ++ '/' :: post) :=
      pysplit_append fileDChars pre (id ++ '/' :: post) (by decide) hfirst
    have hsplit2 : pysplit fileDChars (id ++ '/' :: post) = [id ++ '/' :: post] :=
      pysplit_no_occ _ _ htail
    have hG : hasSubstr fileDChars (pre ++ (fileDChars ++ (id ++ '/' :: post))) = true := by
      rw [hasSubstr_iff]
      exact ⟨pre.length, by
        rw [List.drop_left]
        exact List.isPrefixOf_iff_prefix.mpr (List.prefix_append _ _)⟩
    have hinner : pysplit ['/'] (id ++ '/' :: post) = id :: pysplit ['/'] post := by
      have h := pysplit_append ['/'] id post (by decide)
        (no_singleton_prefix_within id (['/'] ++ post) hslash)
      simpa using h
    simp only [fixDriveUrlChars, hhost, hG, if_true, hsplit1, hsplit2,
      List.getD_cons_succ, List.getD_cons_zero, hinner]
    simp [hid]
  · intro pre id rest hhost hnofile hid hamp hrest hOnce
    have heq : pre ++ idEqChars ++ id ++ rest =
        pre ++ (idEqChars ++ (id ++ rest)) := by
      simp [List.append_assoc]
    rw [heq] at hhost hnofile hOnce ⊢
    have htail : ∀ n, idEqChars.isPrefixOf ((id ++ rest).drop n) = false :=
      no_occ_after idEqChars pre (id ++ rest) (by decide) hOnce
    have hfirst : ∀ n, n < pre.length →
        idEqChars.isPrefixOf ((pre ++ (idEqChars ++ (id ++ rest))).drop n) = false := by
      intro n hn
      cases hp : idEqChars.isPrefixOf ((pre ++ (idEqChars ++ (id ++ rest))).drop n) with
      | false => rfl
      | true =>
        exfalso
        have hlt : n < (pre ++ (idEqChars ++ (id ++ rest))).length := by
          simp [List.length_append]
          omega
        have := hOnce n hlt hp
        omega
    have hsplit1 : pysplit idEqChars (pre ++ (idEqChars ++ (id ++ rest))) =
        pre :: pysplit idEqChars (id ++ rest) :=
      pysplit_append idEqChars pre (id ++ rest) (by decide) hfirst
    have hsplit2 : pysplit idEqChars (id ++ rest) = [id ++ rest] :=
      pysplit_no_occ _ _ htail
    have hG : hasSubstr idEqChars (pre ++ (idEqChars ++ (id ++ rest))) = true := by
      rw [hasSubstr_iff]
      exact ⟨pre.length, by
        rw [List.drop_left]
        exact List.isPrefixOf_iff_prefix.mpr (List.prefix_append _ _)⟩
    have hinner : (pysplit ['&'] (id ++ rest)).getD 0 [] = id := by
      rcases hrest with hnil | ⟨r', hr⟩
      · subst hnil
        rw [List.append_nil]
        rw [pysplit_no_occ ['&'] id (no_singleton_occ id hamp)]
        rfl
      · subst hr
        have h := pysplit_append ['&'] id r' (by decide)
          (no_singleton_prefix_within id (['&'] ++ r') hamp)
        have h2 : pysplit ['&'] (id ++ '&' :: r') = id :: pysplit ['&'] r' := by
          simpa using h
        rw [h2]
        rfl
    simp only [fixDriveUrlChars, hhost, hnofile, hG, if_true, Bool.false_eq_true,
      if_false, hsplit1, hsplit2, List.getD_cons_succ, List.getD_cons_zero, hinner]
    simp [hid]
  · intro url h
    simp [fixDriveUrlChars, h]
  · intro url h1 h2 h3
    simp [fixDriveUrlChars, h1, h2, h3]

/-- C9 witness: both recognized shapes at concrete Drive URLs, and the
pass-through on a foreign-host URL. -/
theorem C9_rewriteHostLink_witness :
    fixDriveUrlChars ("https://drive.google.com/file/d/ABC123/view").data =
      ("https://drive.google.com/thumbnail?id=ABC123&sz=w1000").data ∧
    fixDriveUrlChars ("https://drive.google.com/open?id=ABC123&usp=sharing").data =
      ("https://drive.google.com/thumbnail?id=ABC123&sz=w1000").data ∧
    fixDriveUrlChars ("https://example.com/pic.png").data =
      ("https://example.com/pic.png").data := by
  refine ⟨?_, ?_, ?_⟩
  · have h := C9_rewriteHostLink.1 ("https://drive.google.com").data ("ABC123").data
      ("view").data (by decide) (by decide) (by decide) (by decide)
    have e : ("https://drive.google.com").data ++ fileDChars ++ ("ABC123").data ++
        '/' :: ("view").data = ("https://drive.google.com/file/d/ABC123/view").data := by decide
    have e2 : thumbPre ++ ("ABC123").data ++ thumbSuf =
        ("https://drive.google.com/thumbnail?id=ABC123&sz=w1000").data := by decide
    rw [e, e2] at h
    exact h
  · have h := C9_rewriteHostLink.2.1 ("https://drive.google.com/open?").data ("ABC123").data
      ("&usp=sharing").data (by decide) (by decide) (by decide) (by decide)
      (Or.inr ⟨("usp=sharing").data, by decide⟩) (by decide)
    have e : ("https://drive.google.com/open?").data ++ idEqChars ++ ("ABC123").data ++
        ("&usp=sharing").data = ("https://drive.google.com/open?id=ABC123&usp=sharing").data := by
      decide
    have e2 : thumbPre ++ ("ABC123").data ++ thumbSuf =
        ("https://drive.google.com/thumbnail?id=ABC123&sz=w1000").data := by decide
    rw [e, e2] at h
    exact h
  · exact C9_rewriteHostLink.2.2.1 _ (by decide)

/-! ## Claims C2, C4, C5, C6, C7, C10: the Field Mapper -/

/-- C2: in every frame `apply_mapping` returns, each row's `_search` key
equals the lower-cased, single-space-joined concatenation of the row's own
(cleaned) `BK_Number`, `BK_name`, `BK_rate` and `BK_row` values, with the
image reference excluded (first conjunct, for every well-formed input
frame); on the spec's running example the SearchKey is exactly
`"7 atlas shrugged 250 a3"` (second conjunct). -/
theorem C2_searchKey :
    (∀ (df : DF) (m : Mapping) (out : DF),
      (∀ r ∈ df.rows, keysOf r = df.cols) →
      (∀ c ∈ df.cols, c ∉ APP_FIELDS) →
      (∀ c ∈ df.cols, c ≠ "_search") →
      apply_mapping df m = .ok out →
      ∀ r ∈ out.rows, lookupRow r "_search" =
        lowerStr (lookupRow r "BK_Number" ++ " " ++ lookupRow r "BK_name" ++ " " ++
          lookupRow r "BK_rate" ++ " " ++ lookupRow r "BK_row")) ∧
    (apply_mapping dfEx mEx).map (fun o => o.rows.map (fun r => lookupRow r "_search")) =
      .ok ["7 atlas shrugged 250 a3"] := by
  constructor
  · intro df m out hwf hdisj hsearch hok r hr
    obtain ⟨hlen, hmain⟩ := apply_mapping_ok_lookup df m out hwf hdisj hsearch hok
    obtain ⟨n, hget⟩ := List.mem_iff_get.mp hr
    have hlt : n.1 < df.rows.length := by
      rw [← hlen]
      exact n.2
    have := (hmain n.1 hlt n.2).2.2
    rw [show (⟨n.1, n.2⟩ : Fin out.rows.length) = n from rfl] at this
    rw [hget] at this
    simpa [searchOf] using this
  · decide

/-- C2 witness: the first conjunct applied to the running example frame,
mapping and output row. -/
theorem C2_searchKey_witness :
    lookupRow rowEx "_search" =
      lowerStr (lookupRow rowEx "BK_Number" ++ " " ++ lookupRow rowEx "BK_name" ++ " " ++
        lookupRow rowEx "BK_rate" ++ " " ++ lookupRow rowEx "BK_row") :=
  C2_searchKey.1 dfEx mEx outEx (by decide) (by decide) (by decide) (by decide)
    rowEx (by decide)

/-- C4 counterexample: with Identifier, DisplayName and Location assigned
to existing columns and Price left unset, `apply_mapping` does not
succeed — it raises `MappingIncomplete` naming `BK_rate`, because the
code's `required_fields` list contains `BK_rate` (Price). -/
theorem C4_counterexample :
    apply_mapping dfC4 mC4 = .error (.mappingIncomplete ["BK_rate"]) := by
  decide

/-- C4 (amended): Price (`BK_rate`) is a mandatory field in this code:
for every raw table, a mapping that assigns Identifier, DisplayName and
Location but leaves Price unset fails with `MappingIncomplete` naming
exactly `BK_rate`. -/
theorem C4_priceMandatory (df : DF) (m : Mapping)
    (h1 : unsetF m "BK_Number" = false) (h2 : unsetF m "BK_name" = false)
    (h3 : unsetF m "BK_row" = false) (h4 : unsetF m "BK_rate" = true) :
    apply_mapping df m = .error (.mappingIncomplete ["BK_rate"]) := by
  have hfil : required_fields.filter (fun k => unsetF m k) = ["BK_rate"] := by
    simp [required_fields, List.filter, h1, h2, h3, h4]
  unfold apply_mapping
  rw [hfil]
  rw [if_pos (by simp)]

/-- C4 witness: the amended theorem applied to the concrete table and
Price-less mapping. -/
theorem C4_priceMandatory_witness :
    apply_mapping dfC4 mC4 = .error (.mappingIncomplete ["BK_rate"]) :=
  C4_priceMandatory dfC4 mC4 (by decide) (by decide) (by decide) (by decide)

/-- C5: whenever at least one of Identifier (`BK_Number`), DisplayName
(`BK_name`) or Location (`BK_row`) is unassigned (missing from the
mapping or empty), `apply_mapping` fails — on every table, so before and
regardless of the column-existence check — with `MappingIncomplete`
naming exactly the unset fields of the code's mandatory list. -/
theorem C5_mappingIncomplete (df : DF) (m : Mapping)
    (h : unsetF m "BK_Number" = true ∨ unsetF m "BK_name" = true ∨
      unsetF m "BK_row" = true) :
    apply_mapping df m =
      .error (.mappingIncomplete (required_fields.filter (fun k => unsetF m k))) ∧
    required_fields.filter (fun k => unsetF m k) ≠ [] ∧
    ∀ k, k ∈ required_fields.filter (fun k => unsetF m k) ↔
      (k ∈ required_fields ∧ unsetF m k = true) := by
  have hne : required_fields.filter (fun k => unsetF m k) ≠ [] := by
    rcases h with h | h | h
    · exact List.ne_nil_of_mem (List.mem_filter.mpr ⟨by decide, h⟩)
    · exact List.ne_nil_of_mem (List.mem_filter.mpr ⟨by decide, h⟩)
    · exact List.ne_nil_of_mem (List.mem_filter.mpr ⟨by decide, h⟩)
  refine ⟨?_, hne, fun k => List.mem_filter⟩
  unfold apply_mapping
  rw [if_pos hne]

/-- C5 witness: a mapping missing `BK_name` (and `BK_rate`), applied to a
table that does not even contain the assigned columns: the error is
`MappingIncomplete` naming exactly the unset mandatory fields, not
`ColumnNotFound`. -/
theorem C5_mappingIncomplete_witness :
    apply_mapping dfC5 mC5 = .error (.mappingIncomplete ["BK_name", "BK_rate"]) := by
  have h := (C5_mappingIncomplete dfC5 mC5 (Or.inr (Or.inl (by decide)))).1
  rw [h]
  decide

/-- C6: with all mandatory fields assigned, if some mapping entry's
source column (any entry with a non-empty value qualifies for the
hypothesis) does not occur among the table's columns, `apply_mapping`
fails with `ColumnNotFound` naming a mapped-but-absent column and
carrying verbatim the table's actual column list. -/
theorem C6_columnNotFound (df : DF) (m : Mapping)
    (hset : ∀ k ∈ required_fields, unsetF m k = false)
    (hbad : ∃ k v, (k, v) ∈ m ∧ v ≠ "" ∧ df.cols.contains v = false) :
    ∃ c, apply_mapping df m = .error (.columnNotFound c df.cols) ∧
      (∃ k, (k, c) ∈ m) ∧ df.cols.contains c = false := by
  have hmiss : required_fields.filter (fun k => unsetF m k) = [] := by
    rw [List.filter_eq_nil_iff]
    intro k hk
    simp [hset k hk]
  have hsome : (m.find? (fun kv => !(df.cols.contains kv.2))).isSome = true := by
    rw [List.find?_isSome]
    refine ⟨(hbad.choose, hbad.choose_spec.choose), hbad.choose_spec.choose_spec.1, ?_⟩
    show (!(df.cols.contains hbad.choose_spec.choose)) = true
    rw [hbad.choose_spec.choose_spec.2.2]
    rfl
  obtain ⟨kv, hkv⟩ := Option.isSome_iff_exists.mp hsome
  have hmem := List.mem_of_find?_eq_some hkv
  have hpred := List.find?_some hkv
  have hcontf : df.cols.contains kv.2 = false := by simpa using hpred
  refine ⟨kv.2, ?_, ⟨kv.1, by simpa using hmem⟩, hcontf⟩
  unfold apply_mapping
  rw [if_neg (by simp [hmiss]), hkv]

/-- C6 witness: `BK_Number` mapped to the non-existent column `"X"`: the
error is `ColumnNotFound "X"` listing the table's columns verbatim. -/
theorem C6_columnNotFound_witness :
    apply_mapping dfC6 mC6 = .error (.columnNotFound "X" ["A", "B", "C", "D"]) := by
  obtain ⟨c, hc, hmem, hnc⟩ := C6_columnNotFound dfC6 mC6 (by decide)
    ⟨"BK_Number", "X", by decide, by decide, by decide⟩
  have hval : apply_mapping dfC6 mC6 = .error (.columnNotFound "X" ["A", "B", "C", "D"]) := by
    decide
  rw [hc]
  exact hc.symm.trans hval

/-- C7 (the code bug, evaluated): with all mandatory fields assigned to
existing columns and the optional image entry present with the empty
string — exactly what the admin UI submits when the image column is left
unset — `apply_mapping` raises `ColumnNotFound` for the empty string
instead of succeeding (first conjunct); with the image entry absent from
the dict it does succeed and `BK_image` defaults to the empty string
(second conjunct). -/
theorem C7_imageOptional_bug :
    apply_mapping dfC7 mC7 = .error (.columnNotFound "" ["A", "B", "C", "D"]) ∧
    (apply_mapping dfC7 mC7b).map (fun o => o.rows.map (fun r => lookupRow r "BK_image")) =
      .ok [""] := by
  exact ⟨by decide, by decide⟩

/-- C10: when two or more app fields are assigned the same non-empty
source column (all mapping entries naming existing columns, mandatory
fields set), `apply_mapping` succeeds; the shared column's cleaned values
flow only into the last of the duplicate fields in `APP_FIELDS` order
(`getLast?` of the duplicate set), and every other duplicate field is the
empty string in every row. -/
theorem C10_duplicateMapping (df : DF) (m : Mapping) (src kl : String)
    (hwf : ∀ r ∈ df.rows, keysOf r = df.cols)
    (hdisj : ∀ c ∈ df.cols, c ∉ APP_FIELDS)
    (hsearch : ∀ c ∈ df.cols, c ≠ "_search")
    (hset : ∀ k ∈ required_fields, unsetF m k = false)
    (hcols : ∀ kv ∈ m, df.cols.contains kv.2 = true)
    (hsrc : src ≠ "")
    (hdup : 2 ≤ (APP_FIELDS.filter (fun k => lookupMap m k == some src)).length)
    (hlast : (APP_FIELDS.filter (fun k => lookupMap m k == some src)).getLast? = some kl) :
    ∃ out, apply_mapping df m = .ok out ∧ out.rows.length = df.rows.length ∧
      ∀ i (hi : i < df.rows.length) (hi' : i < out.rows.length),
        (∀ k, k ∈ APP_FIELDS.filter (fun k => lookupMap m k == some src) → k ≠ kl →
          lookupRow (out.rows.get ⟨i, hi'⟩) k = "") ∧
        lookupRow (out.rows.get ⟨i, hi'⟩) kl =
          cleanF kl (lookupRow (df.rows.get ⟨i, hi⟩) src) := by
  have hrenEq : renameOf m src =
      (APP_FIELDS.filter (fun k => lookupMap m k == some src)).getLast? := by
    unfold renameOf
    congr 1
    apply List.filter_congr
    intro k hk
    simp [hsrc]
  have hren : renameOf m src = some kl := by rw [hrenEq, hlast]
  have hmiss : required_fields.filter (fun k => unsetF m k) = [] := by
    rw [List.filter_eq_nil_iff]
    intro k hk
    simp [hset k hk]
  have hfind : m.find? (fun kv => !(df.cols.contains kv.2)) = none := by
    rw [List.find?_eq_none]
    intro kv hkv
    have hc := hcols kv hkv
    simp at hc ⊢
    exact hc
  have hok : apply_mapping df m = .ok (addSearch (fieldsPipe APP_FIELDS
      ⟨df.cols.map (renameCol m), df.rows.map (renameRow m)⟩)) := by
    unfold apply_mapping
    rw [if_neg (by simp [hmiss]), hfind]
  obtain ⟨hlen, hmain⟩ := apply_mapping_ok_lookup df m _ hwf hdisj hsearch hok
  refine ⟨_, hok, hlen, ?_⟩
  intro i hi hi'
  constructor
  · intro k hk hkne
    have hkAF := (List.mem_filter.mp hk).1
    have hklk : lookupMap m k = some src := by
      have := (List.mem_filter.mp hk).2
      simpa using this
    refine (hmain i hi hi').2.1 k hkAF ?_
    intro src' hren'
    have hlk' := (renameOf_spec m src' k hren').2.1
    rw [hklk] at hlk'
    have : src = src' := Option.some.inj hlk'
    rw [← this] at hren'
    rw [hren] at hren'
    exact hkne (Option.some.inj hren').symm
  · exact (hmain i hi hi').1 kl src hren

/-- C10 witness: `BK_Number` and `BK_name` both mapped to column `"X"`
(value `"5"`): the mapped row has `BK_name = "5"` (the later duplicate in
`APP_FIELDS` order wins the rename) and `BK_Number = ""`. -/
theorem C10_duplicateMapping_witness :
    lookupRow ((apply_mapping dfC10 mC10).toOption.getD dfC10 |>.rows.getD 0 [])
        "BK_Number" = "" ∧
    lookupRow ((apply_mapping dfC10 mC10).toOption.getD dfC10 |>.rows.getD 0 [])
        "BK_name" = "5" := by
  obtain ⟨out, hok, hlen, hmain⟩ := C10_duplicateMapping dfC10 mC10 "X" "BK_name"
    (by decide) (by decide) (by decide) (by decide) (by decide) (by decide)
    (by decide) (by decide)
  have h1 := (hmain 0 (by decide) (by rw [hlen]; decide)).1 "BK_Number" (by decide) (by decide)
  have h2 := (hmain 0 (by decide) (by rw [hlen]; decide)).2
  rw [hok]
  have hget : out.rows.get ⟨0, by rw [hlen]; decide⟩ = out.rows.getD 0 [] := by
    rw [List.getD_eq_getElem?_getD, List.getElem?_eq_getElem (by rw [hlen]; decide)]
    rfl
  constructor
  · rw [show (Except.ok out : Except MapError DF).toOption.getD dfC10 = out from rfl]
    rw [← hget]
    exact h1
  · rw [show (Except.ok out : Except MapError DF).toOption.getD dfC10 = out from rfl]
    rw [← hget]
    have : cleanF "BK_name" (lookupRow (dfC10.rows.get ⟨0, by decide⟩) "X") = "5" := by decide
    rw [← this]
    exact h2

end BookStall
